import Mathlib

/-!
Verification of the planning and filter-graph compilation layer of the
uploader-agent repository, shallowly embedded from `src/pipeline.py` and
`src/utils/ffmpeg.py`.  Python floats are modelled as exact rationals, the
unbounded `while` loop of the playlist planner is modelled with explicit
fuel, and Python string operations are modelled on character lists.
-/

namespace UploaderAgent

/-- Python `int(x)`: truncation of a rational toward zero. -/
def pyTrunc (q : ℚ) : ℤ := q.num.tdiv q.den

/-- Python `round(x)` on a rational: round half to even. -/
def pyRound (q : ℚ) : ℤ :=
  let f := ⌊q⌋
  if q - f < 1 / 2 then f
  else if (1 : ℚ) / 2 < q - f then f + 1
  else if 2 ∣ f then f else f + 1

/-- The whitespace characters removed by Python `str.strip()`. -/
def pyIsSpace (c : Char) : Bool :=
  c == ' ' || c == Char.ofNat 9 || c == Char.ofNat 10 || c == Char.ofNat 13 ||
    c == Char.ofNat 11 || c == Char.ofNat 12

/-- Python `str.strip()`: drop whitespace from both ends. -/
def pyStrip (s : String) : String :=
  ⟨((s.data.dropWhile pyIsSpace).reverse.dropWhile pyIsSpace).reverse⟩

/-- Python `str.lower()` (ASCII case folding, as used for style and effect
names). -/
def pyLower (s : String) : String := ⟨s.data.map Char.toLower⟩

/-- The backslash character. -/
def bsChar : Char := Char.ofNat 92

/-- The newline character. -/
def nlChar : Char := Char.ofNat 10

/-- The single-quote character. -/
def sqChar : Char := Char.ofNat 39

/-- Python `str.replace(pat, rep)` for a non-empty pattern: scan left to
right, replacing non-overlapping occurrences and never rescanning the
replacement text. -/
def replaceList (pat rep : List Char) : List Char → List Char
  | [] => []
  | c :: rest =>
    if pat.isPrefixOf (c :: rest) then
      rep ++ replaceList pat rep (rest.drop (pat.length - 1))
    else
      c :: replaceList pat rep rest
termination_by s => s.length
decreasing_by
  · simp only [List.length_cons, List.length_drop]
    omega
  · simp only [List.length_cons]
    omega

/-- Replace every character by a block of characters (the shape that a chain
of single-character `str.replace` calls computes). -/
def expandWith (g : Char → List Char) : List Char → List Char
  | [] => []
  | c :: t => g c ++ expandWith g t

/-- Number of (possibly overlapping) occurrences of `pat` in `s`. -/
def countOccs (pat : List Char) : List Char → ℕ
  | [] => 0
  | c :: t => (if pat.isPrefixOf (c :: t) then 1 else 0) + countOccs pat t

/-- Index of the first occurrence of `pat` in `s` (length of `s` when there
is none). -/
def firstOccIdx (pat : List Char) : List Char → ℕ
  | [] => 0
  | c :: t => if pat.isPrefixOf (c :: t) then 0 else firstOccIdx pat t + 1

/-- One step of the repeat-append loop of `VideoCreatorAgent._build_playlist`
(`src/pipeline.py` lines 271-280), with explicit fuel standing for the
unbounded Python `while total < target_min` loop. -/
def buildPlaylistAux (files : List String) (durations : List ℚ) (targetMin : ℚ) :
    ℕ → List String → ℚ → ℕ → Option (List String × ℚ)
  | 0, playlist, total, _ =>
    if total < targetMin then none else some (playlist, total)
  | fuel + 1, playlist, total, index =>
    if total < targetMin then
      buildPlaylistAux files durations targetMin fuel
        (playlist ++ [files.getD (index % files.length) ""])
        (total + durations.getD (index % durations.length) 0)
        (index + 1)
    else
      some (playlist, total)

/-- `VideoCreatorAgent._build_playlist` (`src/pipeline.py` lines 260-280):
with `target_min <= 0` the input list passes through with the sum of its
durations, otherwise tracks are appended cyclically until the accumulated
duration reaches `target_min`.  `durMap` is the probed duration map, and the
result is `none` exactly when the Python loop would still be running after
`fuel` iterations. -/
def buildPlaylist (files : List String) (targetMin : ℚ) (durMap : String → ℚ)
    (fuel : ℕ) : Option (List String × ℚ) :=
  let durations := files.map durMap
  if targetMin ≤ 0 then some (files, durations.sum)
  else buildPlaylistAux files durations targetMin fuel [] 0 0

/-- Duration map used by the concrete playlist witnesses. -/
def wDur : String → ℚ := fun s => if s = "a" then 2 else 3

/-- Duration map used by the step-count counterexample. -/
def cexDur : String → ℚ := fun s => if s = "a" then 1 else 100

/-- The duration-bound enforcement step of `VideoCreatorAgent.run_once`
(`src/pipeline.py` lines 87-98): Python's `if max_seconds and
total_seconds > max_seconds` trims the audio at exactly `max_seconds`;
`None` and the falsy float `0.0` both disable trimming.  The result is the
trim point, or `none` when no trimming happens. -/
def enforceDurationBound (totalSeconds : ℚ) (maxSeconds : Option ℚ) : Option ℚ :=
  match maxSeconds with
  | none => none
  | some m => if m ≠ 0 ∧ m < totalSeconds then some m else none

/-- `VideoCreatorAgent._resolve_overlay_text` (`src/pipeline.py` lines
486-504), with the calendar date abstracted to its ordinal number and
`random.choice` abstracted to a caller-supplied picker.  `autoTexts` stands
for the already-list-shaped `auto_texts` configuration value (the
comma/newline splitting of a string-shaped value happens before this
logic).  Python's `overlay_cfg.get("text") or ""` turns an absent or empty
text into `""`; a non-empty text skips the candidate logic entirely and the
final result is always stripped. -/
def resolveOverlayText (explicitText : Option String) (autoTexts : List String)
    (autoMode : String) (todayOrdinal : ℕ) (randomPick : List String → String) :
    String :=
  let text := explicitText.getD ""
  let text :=
    if text = "" then
      let cleaned := autoTexts.filterMap fun item =>
        if pyStrip item = "" then none else some (pyStrip item)
      if cleaned ≠ [] then
        let mode := pyLower (pyStrip autoMode)
        if mode = "random" then randomPick cleaned
        else cleaned.getD (todayOrdinal % cleaned.length) ""
      else text
    else text
  pyStrip text

/-- A vignette angle configuration value: `None`, a numeric literal, or a
string expression. -/
inductive VignetteValue where
  | num : ℚ → VignetteValue
  | str : String → VignetteValue

/-- `_format_vignette_angle` (`src/utils/ffmpeg.py` lines 353-359).  `fmt4`
stands for Python's fixed four-decimal float formatting `f"{x:.4f}"`. -/
def formatVignetteAngle (fmt4 : ℚ → String) : Option VignetteValue → String
  | none => "PI/5"
  | some (.num q) => fmt4 q
  | some (.str v) => if pyStrip v = "" then "PI/5" else pyStrip v

/-- `_escape_ffmetadata` (`src/utils/ffmpeg.py` lines 169-175): escape
backslash, newline, equals and semicolon, in that order. -/
def escapeFfmetadata (value : List Char) : List Char :=
  replaceList [';'] [bsChar, ';']
    (replaceList ['='] [bsChar, '=']
      (replaceList [nlChar] [bsChar, 'n']
        (replaceList [bsChar] [bsChar, bsChar] value)))

/-- One emitted chapter block of `write_ffmetadata_chapters`. -/
structure Chapter where
  startMs : ℤ
  endMs : ℤ
  title : String

/-- The chapter-emitting loop of `write_ffmetadata_chapters`
(`src/utils/ffmpeg.py` lines 63-81) as chapter records: tracks missing from
the duration map are skipped, each present track contributes a block of
`max(round(duration*1000), 1)` milliseconds starting where the previous
block ended.  `stem` stands for `pathlib.Path.stem`. -/
def chapterBlocksGo (stem : String → String) (durationMap : String → Option ℚ) :
    List String → ℤ → List Chapter
  | [], _ => []
  | p :: rest, startMs =>
    match durationMap p with
    | none => chapterBlocksGo stem durationMap rest startMs
    | some d =>
      let durationMs := max (pyRound (d * 1000)) 1
      { startMs := startMs, endMs := startMs + durationMs,
        title := String.mk (escapeFfmetadata (stem p).data) } ::
        chapterBlocksGo stem durationMap rest (startMs + durationMs)

/-- The chapter records emitted by `write_ffmetadata_chapters`, starting at
offset 0. -/
def chapterBlocks (stem : String → String) (playlist : List String)
    (durationMap : String → Option ℚ) : List Chapter :=
  chapterBlocksGo stem durationMap playlist 0

/-- The full line list written by `write_ffmetadata_chapters`
(`src/utils/ffmpeg.py` lines 58-82): the `;FFMETADATA1` header followed by
one `[CHAPTER]` block per emitted chapter. -/
def writeFfmetadataChapters (stem : String → String) (playlist : List String)
    (durationMap : String → Option ℚ) : List String :=
  ";FFMETADATA1" ::
    ((chapterBlocks stem playlist durationMap).map fun c =>
      ["[CHAPTER]", "TIMEBASE=1/1000", "START=" ++ toString c.startMs,
       "END=" ++ toString c.endMs, "title=" ++ c.title]).flatten

/-- `_escape_drawtext_value` (`src/utils/ffmpeg.py` lines 165-166): escape
backslash, then colon, then single quote, each by prefixing a backslash. -/
def escapeDrawtextValue (value : List Char) : List Char :=
  replaceList [sqChar] [bsChar, sqChar]
    (replaceList [':'] [bsChar, ':']
      (replaceList [bsChar] [bsChar, bsChar] value))

/-- The inverse substitutions of `_escape_drawtext_value`, applied in the
same fixed order: backslash rule first, then colon, then single quote. -/
def unescapeDrawtextValue (value : List Char) : List Char :=
  replaceList [bsChar, sqChar] [sqChar]
    (replaceList [bsChar, ':'] [':']
      (replaceList [bsChar, bsChar] [bsChar] value))

/-- The per-character block produced by the first substitution of
`_escape_drawtext_value` (backslash doubling). -/
def escTokA (c : Char) : List Char :=
  if c = bsChar then [bsChar, bsChar] else [c]

/-- The per-character block produced after the first two substitutions of
`_escape_drawtext_value` (backslash, then colon). -/
def escTokB (c : Char) : List Char :=
  if c = bsChar then [bsChar, bsChar]
  else if c = ':' then [bsChar, ':'] else [c]

/-- The per-character block produced by the full escape of
`_escape_drawtext_value` (backslash, colon, single quote). -/
def escTokC (c : Char) : List Char :=
  if c = bsChar then [bsChar, bsChar]
  else if c = ':' then [bsChar, ':']
  else if c = sqChar then [bsChar, sqChar] else [c]

/-- Escape blocks after undoing the doubled-backslash rule. -/
def tok1 (c : Char) : List Char :=
  if c = bsChar then [bsChar]
  else if c = ':' then [bsChar, ':']
  else if c = sqChar then [bsChar, sqChar] else [c]

/-- Escape blocks after additionally undoing the colon rule. -/
def tok2 (c : Char) : List Char :=
  if c = bsChar then [bsChar]
  else if c = ':' then [':']
  else if c = sqChar then [bsChar, sqChar] else [c]

/-- The style normalisation of `generate_loop_video_from_image`
(`src/utils/ffmpeg.py` line 263): `motion_style.strip().lower() if
motion_style else "smooth"`. -/
def styleNorm (motionStyle : String) : String :=
  if motionStyle = "" then "smooth" else pyLower (pyStrip motionStyle)

/-- `frames = max(int(duration_seconds * fps), 1)` (`src/utils/ffmpeg.py`
line 259). -/
def framesOf (durationSeconds : ℚ) (fps : ℕ) : ℤ :=
  max (pyTrunc (durationSeconds * fps)) 1

/-- `cycle = max(frames - 1, 1)` (`src/utils/ffmpeg.py` line 260). -/
def cycleOf (durationSeconds : ℚ) (fps : ℕ) : ℤ :=
  max (framesOf durationSeconds fps - 1) 1

/-- The exact rational value of the IEEE-754 double `math.pi`, used by
`math.radians` in the sway effect. -/
def mathPi : ℚ := 884279719003555 / 281474976710656

/-- A concrete stand-in for Python float repr in compiled filter strings:
numerator/denominator text, made of digits, minus and slash only. -/
def ratStr (q : ℚ) : String := toString q.num ++ "/" ++ toString q.den

/-- Membership of `name` in the Python set
`{item.strip().lower() for item in (effects or []) if item}`
(`src/utils/ffmpeg.py` line 292). -/
def effectSetContains (effects : List String) (name : String) : Bool :=
  effects.any fun item => item != "" && pyLower (pyStrip item) == name

/-- The `-vf` filter-graph value computed by `generate_loop_video_from_image`
(`src/utils/ffmpeg.py` lines 259-332), as a function of the five effect-set
membership tests.  `fmt` stands for Python float repr interpolation and
`fmt4` for `f"{x:.4f}"`; all other strings follow the source templates
character for character. -/
def filterValueCore (fmt fmt4 : ℚ → String) (durationSeconds : ℚ) (fps : ℕ)
    (resolution : String) (zoomAmount panAmount : ℚ)
    (swayDegrees flickerAmount hueDegrees : ℚ)
    (vignetteAngle : Option VignetteValue) (motionStyle : String)
    (steamOpacity steamBlur : ℚ) (steamNoise : ℤ)
    (steamDriftX steamDriftY : ℚ)
    (hasSway hasFlicker hasColorDrift hasHue hasVignette hasSteam : Bool) :
    String :=
  let cycle := cycleOf durationSeconds fps
  let phase := "(2*PI*on/" ++ toString cycle ++ ")"
  let phase2 := "(4*PI*on/" ++ toString cycle ++ ")"
  let style := styleNorm motionStyle
  let zoomMix :=
    if style = "cinematic" then
      "(0.7*sin(" ++ phase ++ ")+0.3*sin(" ++ phase2 ++ "+PI/3))"
    else if style = "orbit" then "sin(" ++ phase ++ ")"
    else "sin(" ++ phase ++ ")"
  let panXMix :=
    if style = "cinematic" then
      "(0.8*sin(" ++ phase ++ "+PI/6)+0.2*sin(" ++ phase2 ++ "))"
    else if style = "orbit" then "sin(" ++ phase ++ ")"
    else "sin(" ++ phase ++ ")"
  let panYMix :=
    if style = "cinematic" then
      "(0.8*cos(" ++ phase ++ "+PI/3)+0.2*cos(" ++ phase2 ++ "+PI/4))"
    else if style = "orbit" then "sin(" ++ phase ++ "+PI/2)"
    else "cos(" ++ phase ++ ")"
  let zoomBase := 1 + zoomAmount
  let zoomExprS := fmt zoomBase ++ "+" ++ fmt zoomAmount ++ "*" ++ zoomMix
  let panXExprS := "((iw-iw/zoom)/2)*" ++ fmt panAmount ++ "*" ++ panXMix
  let panYExprS := "((ih-ih/zoom)/2)*" ++ fmt panAmount ++ "*" ++ panYMix
  let baseFilters :=
    ["scale=" ++ resolution,
     "zoompan=z=\x27" ++ zoomExprS ++ "\x27:x=\x27(iw-iw/zoom)/2+" ++
       panXExprS ++ "\x27:y=\x27(ih-ih/zoom)/2+" ++ panYExprS ++
       "\x27:d=1:s=" ++ resolution ++ ":fps=" ++ toString fps]
  let period := max durationSeconds (1 / 10)
  let postFilters :=
    (if hasSway && decide (0 < swayDegrees) then
      ["rotate=\x27" ++ fmt (swayDegrees * mathPi / 180) ++ "*sin(2*PI*t/" ++
        fmt period ++ ")\x27:c=black@0:ow=iw:oh=ih"]
     else []) ++
    (if hasFlicker && decide (0 < flickerAmount) then
      ["eq=brightness=\x27" ++ fmt flickerAmount ++ "*sin(2*PI*t/" ++
        fmt period ++ ")\x27"]
     else []) ++
    (if (hasColorDrift || hasHue) && decide (0 < hueDegrees) then
      ["hue=h=\x27" ++ fmt hueDegrees ++ "*sin(2*PI*t/" ++ fmt period ++ ")\x27"]
     else []) ++
    (if hasVignette then
      ["vignette=angle=" ++ formatVignetteAngle fmt4 vignetteAngle]
     else [])
  if hasSteam then
    let opacity := max 0 (min steamOpacity 1)
    let blur := max steamBlur 0
    let noise := max steamNoise 0
    let driftX := max steamDriftX 0
    let driftY := max steamDriftY 0
    let steamFilters :=
      "crop=w=iw*0.45:h=ih*0.6:x=iw*0.275:y=ih*0.32," ++
      "gblur=sigma=" ++ fmt blur ++ ":steps=2," ++
      "noise=alls=" ++ toString noise ++ ":allf=t+u," ++
      "eq=brightness=0.04," ++
      "colorchannelmixer=aa=" ++ fmt opacity
    let overlayX :=
      "(W-w)/2 + (W*" ++ fmt driftX ++ ")*sin(2*PI*t/" ++ fmt period ++ ")"
    let overlayY :=
      "(H*0.5) - (H*" ++ fmt driftY ++ ")*sin(2*PI*t/" ++ fmt period ++ "+PI/3)"
    let overlayChain :=
      "[base][steam2]overlay=x=\x27" ++ overlayX ++ "\x27:y=\x27" ++
        overlayY ++ "\x27"
    let overlayChain :=
      if postFilters ≠ [] then
        overlayChain ++ "," ++ String.intercalate "," postFilters
      else overlayChain
    String.intercalate "," baseFilters ++ ",format=rgba,split=2[base][steam];" ++
      "[steam]" ++ steamFilters ++ "[steam2];" ++ overlayChain
  else
    String.intercalate "," (baseFilters ++ postFilters)

/-- The `-vf` filter-graph value of `generate_loop_video_from_image`, with
the effect-set membership tests computed from the `effects` argument exactly
as the source does. -/
def generateLoopFilterValue (fmt fmt4 : ℚ → String) (durationSeconds : ℚ)
    (fps : ℕ) (resolution : String) (zoomAmount panAmount : ℚ)
    (effects : List String) (swayDegrees flickerAmount hueDegrees : ℚ)
    (vignetteAngle : Option VignetteValue) (motionStyle : String)
    (steamOpacity steamBlur : ℚ) (steamNoise : ℤ)
    (steamDriftX steamDriftY : ℚ) : String :=
  filterValueCore fmt fmt4 durationSeconds fps resolution zoomAmount panAmount
    swayDegrees flickerAmount hueDegrees vignetteAngle motionStyle
    steamOpacity steamBlur steamNoise steamDriftX steamDriftY
    (effectSetContains effects "sway") (effectSetContains effects "flicker")
    (effectSetContains effects "color_drift") (effectSetContains effects "hue")
    (effectSetContains effects "vignette") (effectSetContains effects "steam")

/-- The compiled filter graph at representative positive effect parameters
(duration 5s, 30 fps, all effect amplitudes positive, default vignette
angle, defaults for the steam parameters), as a function of the effect
list alone. -/
def loopFilterC3 (effects : List String) : String :=
  generateLoopFilterValue ratStr ratStr 5 30 "1920x1080" (1 / 50) (1 / 10)
    effects (7 / 20) (3 / 200) 12 none "smooth" (2 / 25) 10 12 (1 / 50) (1 / 20)

/-- Abstract syntax of the ffmpeg arithmetic expressions that
`generate_loop_video_from_image` compiles for the `zoompan` stage:
rational literals, `PI`, the frame variable `on`, the `zoompan` input
variables `iw`/`ih`/`zoom`, trigonometric calls and arithmetic. -/
inductive FExpr where
  | num : ℚ → FExpr
  | pi : FExpr
  | von : FExpr
  | viw : FExpr
  | vih : FExpr
  | vzoom : FExpr
  | sin : FExpr → FExpr
  | cos : FExpr → FExpr
  | add : FExpr → FExpr → FExpr
  | sub : FExpr → FExpr → FExpr
  | mul : FExpr → FExpr → FExpr
  | div : FExpr → FExpr → FExpr
deriving DecidableEq

/-- An evaluation environment for the `zoompan` expression variables. -/
structure MEnv (R : Type) where
  onv : R
  iw : R
  ih : R
  zoom : R

/-- Evaluation of a compiled motion expression over any field, with the
trigonometric functions and the constant `PI` supplied by the caller (the
claims instantiate these with `Real.sin`, `Real.cos` and `Real.pi`). -/
def FExpr.evalG {R : Type} [Field R] (sinf cosf : R → R) (piv : R)
    (env : MEnv R) : FExpr → R
  | .num q => (q : R)
  | .pi => piv
  | .von => env.onv
  | .viw => env.iw
  | .vih => env.ih
  | .vzoom => env.zoom
  | .sin e => sinf (e.evalG sinf cosf piv env)
  | .cos e => cosf (e.evalG sinf cosf piv env)
  | .add a b => a.evalG sinf cosf piv env + b.evalG sinf cosf piv env
  | .sub a b => a.evalG sinf cosf piv env - b.evalG sinf cosf piv env
  | .mul a b => a.evalG sinf cosf piv env * b.evalG sinf cosf piv env
  | .div a b => a.evalG sinf cosf piv env / b.evalG sinf cosf piv env

/-- The string `(2*PI*on/{cycle})` (`src/utils/ffmpeg.py` line 261) as a
syntax tree. -/
def phaseExpr (cycle : ℤ) : FExpr :=
  .div (.mul (.mul (.num 2) .pi) .von) (.num (cycle : ℚ))

/-- The string `(4*PI*on/{cycle})` (`src/utils/ffmpeg.py` line 262) as a
syntax tree. -/
def phase2Expr (cycle : ℤ) : FExpr :=
  .div (.mul (.mul (.num 4) .pi) .von) (.num (cycle : ℚ))

/-- The per-style `(zoom_mix, pan_x_mix, pan_y_mix)` triple
(`src/utils/ffmpeg.py` lines 264-275), for an already normalised style
name. -/
def motionMixes (style : String) (cycle : ℤ) : FExpr × FExpr × FExpr :=
  if style = "cinematic" then
    (.add (.mul (.num (7 / 10)) (.sin (phaseExpr cycle)))
       (.mul (.num (3 / 10)) (.sin (.add (phase2Expr cycle) (.div .pi (.num 3))))),
     .add (.mul (.num (4 / 5)) (.sin (.add (phaseExpr cycle) (.div .pi (.num 6)))))
       (.mul (.num (1 / 5)) (.sin (phase2Expr cycle))),
     .add (.mul (.num (4 / 5)) (.cos (.add (phaseExpr cycle) (.div .pi (.num 3)))))
       (.mul (.num (1 / 5)) (.cos (.add (phase2Expr cycle) (.div .pi (.num 4))))))
  else if style = "orbit" then
    (.sin (phaseExpr cycle), .sin (phaseExpr cycle),
     .sin (.add (phaseExpr cycle) (.div .pi (.num 2))))
  else
    (.sin (phaseExpr cycle), .sin (phaseExpr cycle), .cos (phaseExpr cycle))

/-- The `(zoom_expr, pan_x_expr, pan_y_expr)` triple of
`generate_loop_video_from_image` (`src/utils/ffmpeg.py` lines 259-279) as
syntax trees: `zoom_expr = (1+zoom_amount) + zoom_amount*zoom_mix`, and
each pan expression is `((dim-dim/zoom)/2)*pan_amount*mix`. -/
def motionExprs (motionStyle : String) (durationSeconds : ℚ) (fps : ℕ)
    (zoomAmount panAmount : ℚ) : FExpr × FExpr × FExpr :=
  let cycle := cycleOf durationSeconds fps
  let mixes := motionMixes (styleNorm motionStyle) cycle
  (.add (.num (1 + zoomAmount)) (.mul (.num zoomAmount) mixes.1),
   .mul (.mul (.div (.sub .viw (.div .viw .vzoom)) (.num 2)) (.num panAmount))
     mixes.2.1,
   .mul (.mul (.div (.sub .vih (.div .vih .vzoom)) (.num 2)) (.num panAmount))
     mixes.2.2)

lemma getD_mem_of_ne_nil (files : List String) (i : ℕ) (h : files ≠ []) :
    files.getD (i % files.length) "" ∈ files := by
  have hn : 0 < files.length := List.length_pos.mpr h
  have hi : i % files.length < files.length := Nat.mod_lt _ hn
  rw [List.getD_eq_getElem _ _ hi]
  exact List.getElem_mem hi

lemma getD_map_durMap (files : List String) (durMap : String → ℚ) (i : ℕ)
    (h : files ≠ []) :
    (files.map durMap).getD (i % (files.map durMap).length) 0
      = durMap (files.getD (i % files.length) "") := by
  have hn : 0 < files.length := List.length_pos.mpr h
  have hi : i % files.length < files.length := Nat.mod_lt _ hn
  have hlen : (files.map durMap).length = files.length := List.length_map _ _
  rw [hlen]
  have hi2 : i % files.length < (files.map durMap).length := by
    rw [hlen]; exact hi
  rw [List.getD_eq_getElem _ _ hi2, List.getD_eq_getElem _ _ hi]
  simp

lemma buildPlaylistAux_spec (files : List String) (durMap : String → ℚ)
    (targetMin : ℚ) (hne : files ≠ []) :
    ∀ (fuel : ℕ) (playlist : List String) (total : ℚ) (index : ℕ)
      (res : List String) (tot : ℚ),
      buildPlaylistAux files (files.map durMap) targetMin fuel playlist total
        index = some (res, tot) →
      total = (playlist.map durMap).sum →
      (playlist = [] ∨ ((playlist.dropLast).map durMap).sum < targetMin) →
      tot = (res.map durMap).sum ∧ targetMin ≤ tot ∧
        (res = [] ∨ ((res.dropLast).map durMap).sum < targetMin) := by
  intro fuel
  induction fuel with
  | zero =>
    intro playlist total index res tot h htot hlast
    by_cases hlt : total < targetMin
    · simp [buildPlaylistAux, hlt] at h
    · simp only [buildPlaylistAux, if_neg hlt, Option.some.injEq,
        Prod.mk.injEq] at h
      obtain ⟨rfl, rfl⟩ := h
      exact ⟨htot, not_lt.mp hlt, hlast⟩
  | succ f ih =>
    intro playlist total index res tot h htot hlast
    by_cases hlt : total < targetMin
    · rw [buildPlaylistAux, if_pos hlt, getD_map_durMap files durMap index hne]
        at h
      refine ih (playlist ++ [files.getD (index % files.length) ""])
        (total + durMap (files.getD (index % files.length) "")) (index + 1)
        res tot h ?_ (Or.inr ?_)
      · simp [htot]
      · rw [List.dropLast_concat, ← htot]
        exact hlt
    · simp only [buildPlaylistAux, if_neg hlt, Option.some.injEq,
        Prod.mk.injEq] at h
      obtain ⟨rfl, rfl⟩ := h
      exact ⟨htot, not_lt.mp hlt, hlast⟩

lemma buildPlaylistAux_total (files : List String) (durMap : String → ℚ)
    (targetMin δ : ℚ) (hne : files ≠ []) (_hδ : 0 < δ)
    (hdur : ∀ p ∈ files, δ ≤ durMap p) :
    ∀ (fuel : ℕ) (playlist : List String) (total : ℚ) (index : ℕ),
      targetMin ≤ total + fuel * δ →
      ∃ res tot,
        buildPlaylistAux files (files.map durMap) targetMin fuel playlist total
          index = some (res, tot) ∧ res.length ≤ playlist.length + fuel := by
  intro fuel
  induction fuel with
  | zero =>
    intro playlist total index hfuel
    have hge : ¬ total < targetMin := by
      simp only [Nat.cast_zero, zero_mul, add_zero] at hfuel
      exact not_lt.mpr hfuel
    exact ⟨playlist, total, by simp [buildPlaylistAux, hge], by simp⟩
  | succ f ih =>
    intro playlist total index hfuel
    by_cases hlt : total < targetMin
    · have hd : δ ≤ durMap (files.getD (index % files.length) "") :=
        hdur _ (getD_mem_of_ne_nil files index hne)
      obtain ⟨res, tot, hres, hlen⟩ :=
        ih (playlist ++ [files.getD (index % files.length) ""])
          (total + durMap (files.getD (index % files.length) "")) (index + 1)
          (by push_cast at hfuel ⊢; ring_nf at hfuel ⊢; linarith)
      refine ⟨res, tot, ?_, ?_⟩
      · rw [buildPlaylistAux, if_pos hlt,
          getD_map_durMap files durMap index hne]
        exact hres
      · simp only [List.length_append, List.length_singleton] at hlen
        omega
    · exact ⟨playlist, total, by simp [buildPlaylistAux, hlt], by simp⟩

/-- C1: whenever `_build_playlist` returns on a non-empty track list with a
positive minimum target, the playlist's cumulative duration reaches the
target and dropping its final entry falls short of it: the repeat count is
minimal. -/
theorem buildPlaylist_meets_target_minimally (files : List String)
    (durMap : String → ℚ) (targetMin : ℚ) (fuel : ℕ) (playlist : List String)
    (total : ℚ) (hne : files ≠ []) (hpos : 0 < targetMin)
    (h : buildPlaylist files targetMin durMap fuel = some (playlist, total)) :
    total = (playlist.map durMap).sum ∧
    targetMin ≤ (playlist.map durMap).sum ∧
    ((playlist.dropLast).map durMap).sum < targetMin := by
  simp only [buildPlaylist, if_neg (not_le.mpr hpos)] at h
  obtain ⟨h1, h2, h3⟩ :=
    buildPlaylistAux_spec files durMap targetMin hne fuel [] 0 0 playlist total
      h (by simp) (Or.inl rfl)
  refine ⟨h1, h1 ▸ h2, ?_⟩
  rcases h3 with rfl | h3
  · simpa using hpos
  · exact h3

/-- Witness for C1 at a concrete two-track list with durations 2 and 3 and a
5-second target. -/
theorem buildPlaylist_meets_target_minimally_witness :
    (5 : ℚ) = ((["a", "b"]).map wDur).sum ∧
    (5 : ℚ) ≤ ((["a", "b"]).map wDur).sum ∧
    (((["a", "b"] : List String).dropLast).map wDur).sum < 5 :=
  buildPlaylist_meets_target_minimally ["a", "b"] wDur 5 10 ["a", "b"] 5
    (by decide) (by norm_num)
    (by norm_num [buildPlaylist, buildPlaylistAux, show wDur "a" = 2 from rfl,
      show wDur "b" = 3 from rfl])

/-- C8 (amended): for a non-empty track list whose durations all reach a
positive lower bound and any positive minimum target, the append loop
terminates within any step budget `fuel` satisfying `fuel * δ ≥ min`,
producing a playlist of at most `fuel` tracks. -/
theorem buildPlaylist_terminates (files : List String) (durMap : String → ℚ)
    (targetMin δ : ℚ) (fuel : ℕ) (hne : files ≠ []) (hpos : 0 < targetMin)
    (hδ : 0 < δ) (hdur : ∀ p ∈ files, δ ≤ durMap p)
    (hfuel : targetMin ≤ fuel * δ) :
    ∃ playlist total,
      buildPlaylist files targetMin durMap fuel = some (playlist, total) ∧
      playlist.length ≤ fuel := by
  obtain ⟨res, tot, hres, hlen⟩ :=
    buildPlaylistAux_total files durMap targetMin δ hne hδ hdur fuel [] 0 0
      (by simpa using hfuel)
  refine ⟨res, tot, ?_, by simpa using hlen⟩
  simp only [buildPlaylist, if_neg (not_le.mpr hpos)]
  exact hres

/-- Witness for the amended C8 on a concrete two-track list. -/
theorem buildPlaylist_terminates_witness :
    ∃ playlist total,
      buildPlaylist ["a", "b"] 5 wDur 3 = some (playlist, total) ∧
      playlist.length ≤ 3 :=
  buildPlaylist_terminates ["a", "b"] wDur 5 2 3 (by decide) (by norm_num)
    (by norm_num) (by decide) (by norm_num)

/-- C8 counterexample: with track durations 1 and 100 and a 150-second
minimum target the loop takes 4 steps, while ceil(min/avg) =
ceil(150/50.5) = 3: the step count is not `ceil(min_seconds/avg_duration)`. -/
theorem buildPlaylist_step_count_counterexample :
    buildPlaylist ["a", "b"] 150 cexDur 10 = some (["a", "b", "a", "b"], 202) ∧
    (["a", "b", "a", "b"] : List String).length = 4 ∧
    ⌈(150 : ℚ) / ((((["a", "b"] : List String).map cexDur).sum) /
      ((["a", "b"] : List String).length : ℚ))⌉ = 3 := by
  refine ⟨?_, by decide, ?_⟩
  · norm_num [buildPlaylist, buildPlaylistAux, show cexDur "a" = 1 from rfl,
      show cexDur "b" = 100 from rfl]
  · have h : (((["a", "b"] : List String).map cexDur).sum) = 101 := by
      norm_num [show cexDur "a" = 1 from rfl, show cexDur "b" = 100 from rfl]
    rw [h]
    have h2 : (150 : ℚ) / ((101 : ℚ) / ((["a", "b"] : List String).length : ℚ))
        = 300 / 101 := by
      norm_num
    rw [h2, Int.ceil_eq_iff]
    norm_num

/-- C2 counterexample: with a configured maximum of 0 seconds and a positive
realized total the code performs no trim at all (Python's `0.0` is falsy),
while the claim demands a trim at exactly the maximum. -/
theorem enforce_zero_max_counterexample :
    enforceDurationBound 5 (some 0) = none ∧ (0 : ℚ) < 5 := by
  constructor
  · simp [enforceDurationBound]
  · norm_num

/-- C2 (amended): with no maximum configured the total passes through
untrimmed; with a maximum configured, trimming happens iff the maximum is
nonzero and the realized total exceeds it, and the trim point is exactly the
maximum; a configured maximum of 0 is falsy and disables trimming. -/
theorem enforce_duration_bound_spec (total m : ℚ) :
    enforceDurationBound total none = none ∧
    (enforceDurationBound total (some m) = some m ↔ m ≠ 0 ∧ m < total) ∧
    (enforceDurationBound total (some m) = none ↔ m = 0 ∨ total ≤ m) := by
  refine ⟨rfl, ?_, ?_⟩ <;> by_cases h : m ≠ 0 ∧ m < total
  · simp only [enforceDurationBound]
    rw [if_pos h]
    exact iff_of_true rfl h
  · simp only [enforceDurationBound]
    rw [if_neg h]
    exact iff_of_false (by simp) h
  · simp only [enforceDurationBound]
    rw [if_pos h]
    refine iff_of_false (by simp) ?_
    rintro (hm | hm)
    · exact h.1 hm
    · exact absurd h.2 (not_lt.mpr hm)
  · simp only [enforceDurationBound]
    rw [if_neg h]
    rw [not_and_or, not_not, not_lt] at h
    exact iff_of_true rfl h

lemma resolveOverlay_daily_abc (ord : ℕ) (pick : List String → String) :
    resolveOverlayText none ["A", "B", "C"] "daily" ord pick
      = ["A", "B", "C"].getD (ord % 3) "" := by
  have key : resolveOverlayText none ["A", "B", "C"] "daily" ord pick
      = pyStrip (["A", "B", "C"].getD (ord % 3) "") := rfl
  rw [key]
  have h3 : ord % 3 = 0 ∨ ord % 3 = 1 ∨ ord % 3 = 2 := by omega
  rcases h3 with h | h | h <;> rw [h] <;> rfl

/-- C4 counterexample: a whitespace-only explicit text suppresses the daily
candidates and resolves to the empty string, not to candidate "A" as the
claim predicts for ordinal 0. -/
theorem overlay_whitespace_counterexample :
    resolveOverlayText (some "  ") ["A", "B", "C"] "daily" 0 (fun _ => "") = ""
      ∧ ("A" : String) ≠ "" := by
  constructor
  · rfl
  · decide

/-- C4 (amended): a non-empty explicit text always wins (stripped of
whitespace), so a whitespace-only explicit text yields the empty string
while still suppressing the candidates; only an empty or absent explicit
text lets daily mode pick candidate `ordinal mod 3`, the same value for
every call on one date and cycling over consecutive dates. -/
theorem overlay_text_resolution (t autoMode : String) (cands : List String)
    (ord : ℕ) (pick pick2 : List String → String) (ht : t ≠ "") :
    resolveOverlayText (some t) cands autoMode ord pick = pyStrip t ∧
    resolveOverlayText (some "  ") ["A", "B", "C"] "daily" ord pick = "" ∧
    resolveOverlayText none ["A", "B", "C"] "daily" ord pick
      = ["A", "B", "C"].getD (ord % 3) "" ∧
    resolveOverlayText none ["A", "B", "C"] "daily" (ord + 3) pick2
      = resolveOverlayText none ["A", "B", "C"] "daily" ord pick := by
  refine ⟨?_, rfl, resolveOverlay_daily_abc ord pick, ?_⟩
  · simp only [resolveOverlayText, Option.getD_some, if_neg ht]
  · rw [resolveOverlay_daily_abc, resolveOverlay_daily_abc,
      Nat.add_mod_right]

/-- Witness for the amended C4 with explicit text `"Hello "`. -/
theorem overlay_text_resolution_witness :
    resolveOverlayText (some "Hello ") [] "daily" 7 (fun _ => "x") =
      pyStrip "Hello " ∧
    resolveOverlayText (some "  ") ["A", "B", "C"] "daily" 7 (fun _ => "x") = ""
      ∧
    resolveOverlayText none ["A", "B", "C"] "daily" 7 (fun _ => "x")
      = ["A", "B", "C"].getD (7 % 3) "" ∧
    resolveOverlayText none ["A", "B", "C"] "daily" (7 + 3) (fun _ => "y")
      = resolveOverlayText none ["A", "B", "C"] "daily" 7 (fun _ => "x") :=
  overlay_text_resolution "Hello " "daily" [] 7 (fun _ => "x") (fun _ => "y")
    (by decide)

/-- C9 counterexample: a non-empty unparseable strength string such as
`"banana"` is emitted verbatim by `_format_vignette_angle`, not replaced by
the default constant. -/
theorem vignette_passthrough_counterexample :
    formatVignetteAngle (fun _ => "") (some (.str "banana")) = "banana" ∧
    ("banana" : String) ≠ "PI/5" := by
  constructor
  · rfl
  · decide

/-- C9 (amended): a numeric strength is accepted and handed to the
four-decimal formatter, an absent or blank strength falls back to the fixed
default `PI/5`, and any other non-empty string (a fraction-of-pi expression
or arbitrary unparseable text alike) is passed through stripped but
otherwise verbatim, with no parsing or validation. -/
theorem vignette_angle_spec (fmt4 : ℚ → String) (q : ℚ) (s1 s2 : String)
    (h1 : pyStrip s1 = "") (h2 : pyStrip s2 ≠ "") :
    formatVignetteAngle fmt4 none = "PI/5" ∧
    formatVignetteAngle fmt4 (some (.num q)) = fmt4 q ∧
    formatVignetteAngle fmt4 (some (.str s1)) = "PI/5" ∧
    formatVignetteAngle fmt4 (some (.str s2)) = pyStrip s2 := by
  refine ⟨rfl, rfl, ?_, ?_⟩
  · simp only [formatVignetteAngle, if_pos h1]
  · simp only [formatVignetteAngle, if_neg h2]

/-- Witness for the amended C9 at a blank and a fraction-of-pi strength. -/
theorem vignette_angle_spec_witness :
    formatVignetteAngle (fun _ => "0.6283") none = "PI/5" ∧
    formatVignetteAngle (fun _ => "0.6283") (some (.num (1 / 5))) =
      (fun _ : ℚ => "0.6283") (1 / 5) ∧
    formatVignetteAngle (fun _ => "0.6283") (some (.str "  ")) = "PI/5" ∧
    formatVignetteAngle (fun _ => "0.6283") (some (.str " PI/4 ")) =
      pyStrip " PI/4 " :=
  vignette_angle_spec (fun _ => "0.6283") (1 / 5) "  " " PI/4 " (by decide)
    (by decide)

lemma chapterBlocksGo_head (stem : String → String)
    (durationMap : String → Option ℚ) :
    ∀ (l : List String) (startMs : ℤ) (c : Chapter),
      (chapterBlocksGo stem durationMap l startMs).head? = some c →
      c.startMs = startMs := by
  intro l
  induction l with
  | nil => intro startMs c h; simp [chapterBlocksGo] at h
  | cons p rest ih =>
    intro startMs c h
    rw [chapterBlocksGo] at h
    cases hd : durationMap p with
    | none => rw [hd] at h; exact ih startMs c h
    | some d =>
      rw [hd] at h
      simp only [List.head?_cons, Option.some.injEq] at h
      rw [← h]

lemma chapterBlocksGo_chain (stem : String → String)
    (durationMap : String → Option ℚ) :
    ∀ (l : List String) (startMs : ℤ),
      List.Chain' (fun a b => a.endMs = b.startMs)
        (chapterBlocksGo stem durationMap l startMs) := by
  intro l
  induction l with
  | nil => intro startMs; simp [chapterBlocksGo]
  | cons p rest ih =>
    intro startMs
    rw [chapterBlocksGo]
    cases hd : durationMap p with
    | none => exact ih startMs
    | some d =>
      rw [List.chain'_cons']
      refine ⟨?_, ih _⟩
      intro c hc
      have := chapterBlocksGo_head stem durationMap rest _ c hc
      rw [this]

lemma chapterBlocksGo_nondegenerate (stem : String → String)
    (durationMap : String → Option ℚ) :
    ∀ (l : List String) (startMs : ℤ) (c : Chapter),
      c ∈ chapterBlocksGo stem durationMap l startMs →
      c.startMs + 1 ≤ c.endMs := by
  intro l
  induction l with
  | nil => intro startMs c h; simp [chapterBlocksGo] at h
  | cons p rest ih =>
    intro startMs c h
    rw [chapterBlocksGo] at h
    cases hd : durationMap p with
    | none => rw [hd] at h; exact ih startMs c h
    | some d =>
      rw [hd] at h
      rcases List.mem_cons.mp h with rfl | h
      · have : (1 : ℤ) ≤ max (pyRound (d * 1000)) 1 := le_max_right _ _
        simp only []
        omega
      · exact ih _ c h

lemma chapterBlocksGo_length (stem : String → String)
    (durationMap : String → Option ℚ) :
    ∀ (l : List String) (startMs : ℤ),
      (chapterBlocksGo stem durationMap l startMs).length
        = (l.filter fun p => (durationMap p).isSome).length := by
  intro l
  induction l with
  | nil => intro startMs; simp [chapterBlocksGo]
  | cons p rest ih =>
    intro startMs
    rw [chapterBlocksGo, List.filter_cons]
    cases hd : durationMap p with
    | none => simp [hd, ih startMs]
    | some d => simp [hd, ih]

/-- C10: the emitted chapter blocks are contiguous and non-degenerate: the
first chapter starts at 0, each chapter's START equals the previous
chapter's END, every chapter lasts at least one millisecond even for
zero-length tracks, and a playlist entry absent from the duration map
produces no chapter block at all. -/
theorem chapter_metadata_invariant (stem : String → String)
    (playlist : List String) (durationMap : String → Option ℚ) :
    (∀ c, (chapterBlocks stem playlist durationMap).head? = some c →
      c.startMs = 0) ∧
    List.Chain' (fun a b => a.endMs = b.startMs)
      (chapterBlocks stem playlist durationMap) ∧
    (∀ c ∈ chapterBlocks stem playlist durationMap,
      c.startMs + 1 ≤ c.endMs) ∧
    (chapterBlocks stem playlist durationMap).length
      = (playlist.filter fun p => (durationMap p).isSome).length :=
  ⟨fun c => chapterBlocksGo_head stem durationMap playlist 0 c,
   chapterBlocksGo_chain stem durationMap playlist 0,
   fun c => chapterBlocksGo_nondegenerate stem durationMap playlist 0 c,
   chapterBlocksGo_length stem durationMap playlist 0⟩

/-- Witness for C10 on a concrete playlist with a missing duration entry. -/
theorem chapter_metadata_invariant_witness :
    (∀ c, (chapterBlocks id ["x", "y"]
        (fun p => if p = "x" then some 2 else none)).head? = some c →
      c.startMs = 0) ∧
    List.Chain' (fun a b => a.endMs = b.startMs)
      (chapterBlocks id ["x", "y"]
        (fun p => if p = "x" then some 2 else none)) ∧
    (∀ c ∈ chapterBlocks id ["x", "y"]
        (fun p => if p = "x" then some 2 else none),
      c.startMs + 1 ≤ c.endMs) ∧
    (chapterBlocks id ["x", "y"]
        (fun p => if p = "x" then some 2 else none)).length
      = (["x", "y"].filter fun p =>
          ((fun p => if p = "x" then some (2 : ℚ) else none) p).isSome).length :=
  chapter_metadata_invariant id ["x", "y"]
    (fun p => if p = "x" then some 2 else none)

lemma replaceList_stream (pat rep : List Char) (g f : Char → List Char)
    (hstep : ∀ c t, replaceList pat rep (g c ++ expandWith g t)
      = f c ++ replaceList pat rep (expandWith g t)) :
    ∀ s, replaceList pat rep (expandWith g s) = expandWith f s := by
  intro s
  induction s with
  | nil => simp [expandWith, replaceList]
  | cons c t ih =>
    show replaceList pat rep (g c ++ expandWith g t) = f c ++ expandWith f t
    rw [hstep, ih]

lemma expandWith_singleton :
    ∀ s : List Char, expandWith (fun c => [c]) s = s := by
  intro s
  induction s with
  | nil => rfl
  | cons c t ih =>
    show c :: expandWith (fun c => [c]) t = c :: t
    rw [ih]

lemma escapeDrawtext_step1 (s : List Char) :
    replaceList [bsChar] [bsChar, bsChar] s = expandWith escTokA s := by
  conv_lhs => rw [← expandWith_singleton s]
  refine replaceList_stream _ _ _ _ ?_ s
  intro c t
  by_cases hc : c = bsChar
  · subst hc
    show replaceList _ _ (bsChar :: expandWith _ t) = _
    rw [replaceList, if_pos (by simp [List.isPrefixOf_cons₂])]
    simp [escTokA]
  · show replaceList _ _ (c :: expandWith _ t) = _
    rw [replaceList, if_neg (by simp [List.isPrefixOf_cons₂, Ne.symm hc])]
    simp [escTokA, hc]

lemma escapeDrawtext_step2 (s : List Char) :
    replaceList [':'] [bsChar, ':'] (expandWith escTokA s)
      = expandWith escTokB s := by
  refine replaceList_stream _ _ _ _ ?_ s
  intro c t
  by_cases hc : c = bsChar
  · subst hc
    rw [show escTokA bsChar = [bsChar, bsChar] from rfl,
      show escTokB bsChar = [bsChar, bsChar] from rfl]
    show replaceList _ _ (bsChar :: bsChar :: expandWith _ t) = _
    rw [replaceList,
      if_neg (by simp [List.isPrefixOf_cons₂,
        show (':' == bsChar) = false from rfl])]
    rw [replaceList,
      if_neg (by simp [List.isPrefixOf_cons₂,
        show (':' == bsChar) = false from rfl])]
    rfl
  · by_cases hc2 : c = ':'
    · subst hc2
      rw [show escTokA ':' = [':'] from rfl,
        show escTokB ':' = [bsChar, ':'] from rfl]
      show replaceList _ _ (':' :: expandWith _ t) = _
      rw [replaceList, if_pos (by simp [List.isPrefixOf_cons₂])]
      simp
    · rw [show escTokA c = [c] from by simp [escTokA, hc],
        show escTokB c = [c] from by simp [escTokB, hc, hc2]]
      show replaceList _ _ (c :: expandWith _ t) = _
      rw [replaceList,
        if_neg (by simp [List.isPrefixOf_cons₂, Ne.symm hc2])]
      rfl

lemma escapeDrawtext_step3 (s : List Char) :
    replaceList [sqChar] [bsChar, sqChar] (expandWith escTokB s)
      = expandWith escTokC s := by
  refine replaceList_stream _ _ _ _ ?_ s
  intro c t
  by_cases hc : c = bsChar
  · subst hc
    rw [show escTokB bsChar = [bsChar, bsChar] from rfl,
      show escTokC bsChar = [bsChar, bsChar] from rfl]
    show replaceList _ _ (bsChar :: bsChar :: expandWith _ t) = _
    rw [replaceList,
      if_neg (by simp [List.isPrefixOf_cons₂,
        show (sqChar == bsChar) = false from rfl])]
    rw [replaceList,
      if_neg (by simp [List.isPrefixOf_cons₂,
        show (sqChar == bsChar) = false from rfl])]
    rfl
  · by_cases hc2 : c = ':'
    · subst hc2
      rw [show escTokB ':' = [bsChar, ':'] from rfl,
        show escTokC ':' = [bsChar, ':'] from rfl]
      show replaceList _ _ (bsChar :: ':' :: expandWith _ t) = _
      rw [replaceList,
        if_neg (by simp [List.isPrefixOf_cons₂,
          show (sqChar == bsChar) = false from rfl])]
      rw [replaceList,
        if_neg (by simp [List.isPrefixOf_cons₂,
          show (sqChar == ':') = false from rfl])]
      rfl
    · by_cases hc3 : c = sqChar
      · subst hc3
        rw [show escTokB sqChar = [sqChar] from rfl,
          show escTokC sqChar = [bsChar, sqChar] from rfl]
        show replaceList _ _ (sqChar :: expandWith _ t) = _
        rw [replaceList, if_pos (by simp [List.isPrefixOf_cons₂])]
        simp
      · rw [show escTokB c = [c] from by simp [escTokB, hc, hc2],
          show escTokC c = [c] from by simp [escTokC, hc, hc2, hc3]]
        show replaceList _ _ (c :: expandWith _ t) = _
        rw [replaceList,
          if_neg (by simp [List.isPrefixOf_cons₂, Ne.symm hc3])]
        rfl

lemma escapeDrawtextValue_eq (s : List Char) :
    escapeDrawtextValue s = expandWith escTokC s := by
  rw [escapeDrawtextValue, escapeDrawtext_step1, escapeDrawtext_step2,
    escapeDrawtext_step3]

lemma expandWith_tok1_head :
    ∀ (t : List Char) (d : Char) (r : List Char),
      expandWith tok1 t = d :: r → d ≠ ':' := by
  intro t
  cases t with
  | nil => intro d r h; simp [expandWith] at h
  | cons c t2 =>
    intro d r h
    by_cases h1 : c = bsChar
    · subst h1
      replace h : [bsChar] ++ expandWith tok1 t2 = d :: r := h
      simp only [List.cons_append, List.nil_append, List.cons.injEq] at h
      rw [← h.1]
      decide
    · by_cases h2 : c = ':'
      · subst h2
        replace h : [bsChar, ':'] ++ expandWith tok1 t2 = d :: r := h
        simp only [List.cons_append, List.nil_append, List.cons.injEq] at h
        rw [← h.1]
        decide
      · by_cases h3 : c = sqChar
        · subst h3
          replace h : [bsChar, sqChar] ++ expandWith tok1 t2 = d :: r := h
          simp only [List.cons_append, List.nil_append, List.cons.injEq] at h
          rw [← h.1]
          decide
        · replace h : tok1 c ++ expandWith tok1 t2 = d :: r := h
          rw [show tok1 c = [c] from by simp [tok1, h1, h2, h3]] at h
          simp only [List.cons_append, List.nil_append, List.cons.injEq] at h
          rw [← h.1]
          exact h2

lemma expandWith_tok2_head :
    ∀ (t : List Char) (d : Char) (r : List Char),
      expandWith tok2 t = d :: r → d ≠ sqChar := by
  intro t
  cases t with
  | nil => intro d r h; simp [expandWith] at h
  | cons c t2 =>
    intro d r h
    by_cases h1 : c = bsChar
    · subst h1
      replace h : [bsChar] ++ expandWith tok2 t2 = d :: r := h
      simp only [List.cons_append, List.nil_append, List.cons.injEq] at h
      rw [← h.1]
      decide
    · by_cases h2 : c = ':'
      · subst h2
        replace h : [':'] ++ expandWith tok2 t2 = d :: r := h
        simp only [List.cons_append, List.nil_append, List.cons.injEq] at h
        rw [← h.1]
        decide
      · by_cases h3 : c = sqChar
        · subst h3
          replace h : [bsChar, sqChar] ++ expandWith tok2 t2 = d :: r := h
          simp only [List.cons_append, List.nil_append, List.cons.injEq] at h
          rw [← h.1]
          decide
        · replace h : tok2 c ++ expandWith tok2 t2 = d :: r := h
          rw [show tok2 c = [c] from by simp [tok2, h1, h2, h3]] at h
          simp only [List.cons_append, List.nil_append, List.cons.injEq] at h
          rw [← h.1]
          exact h3

lemma unescape_step1 (s : List Char) :
    replaceList [bsChar, bsChar] [bsChar] (expandWith escTokC s)
      = expandWith tok1 s := by
  refine replaceList_stream _ _ _ _ ?_ s
  intro c t
  by_cases hc : c = bsChar
  · subst hc
    rw [show escTokC bsChar = [bsChar, bsChar] from rfl,
      show tok1 bsChar = [bsChar] from rfl]
    show replaceList _ _ (bsChar :: bsChar :: expandWith _ t) = _
    rw [replaceList, if_pos (by simp [List.isPrefixOf_cons₂])]
    simp
  · by_cases hc2 : c = ':'
    · subst hc2
      rw [show escTokC ':' = [bsChar, ':'] from rfl,
        show tok1 ':' = [bsChar, ':'] from rfl]
      show replaceList _ _ (bsChar :: ':' :: expandWith _ t) = _
      rw [replaceList,
        if_neg (by simp [List.isPrefixOf_cons₂,
          show (bsChar == ':') = false from rfl])]
      rw [replaceList,
        if_neg (by simp [List.isPrefixOf_cons₂,
          show (bsChar == ':') = false from rfl])]
      rfl
    · by_cases hc3 : c = sqChar
      · subst hc3
        rw [show escTokC sqChar = [bsChar, sqChar] from rfl,
          show tok1 sqChar = [bsChar, sqChar] from rfl]
        show replaceList _ _ (bsChar :: sqChar :: expandWith _ t) = _
        rw [replaceList,
          if_neg (by simp [List.isPrefixOf_cons₂,
            show (bsChar == sqChar) = false from rfl])]
        rw [replaceList,
          if_neg (by simp [List.isPrefixOf_cons₂,
            show (bsChar == sqChar) = false from rfl])]
        rfl
      · rw [show escTokC c = [c] from by simp [escTokC, hc, hc2, hc3],
          show tok1 c = [c] from by simp [tok1, hc, hc2, hc3]]
        show replaceList _ _ (c :: expandWith _ t) = _
        rw [replaceList,
          if_neg (by simp [List.isPrefixOf_cons₂, Ne.symm hc])]
        rfl

lemma unescape_step2 (s : List Char) :
    replaceList [bsChar, ':'] [':'] (expandWith tok1 s)
      = expandWith tok2 s := by
  refine replaceList_stream _ _ _ _ ?_ s
  intro c t
  by_cases hc : c = bsChar
  · subst hc
    rw [show tok1 bsChar = [bsChar] from rfl,
      show tok2 bsChar = [bsChar] from rfl]
    show replaceList _ _ (bsChar :: expandWith tok1 t) = _
    cases hE : expandWith tok1 t with
    | nil => simp [replaceList, List.isPrefixOf_cons₂]
    | cons d r =>
      have hd : ':' ≠ d := Ne.symm (expandWith_tok1_head t d r hE)
      rw [replaceList,
        if_neg (by simp [List.isPrefixOf_cons₂, hd])]
      rfl
  · by_cases hc2 : c = ':'
    · subst hc2
      rw [show tok1 ':' = [bsChar, ':'] from rfl,
        show tok2 ':' = [':'] from rfl]
      show replaceList _ _ (bsChar :: ':' :: expandWith _ t) = _
      rw [replaceList, if_pos (by simp [List.isPrefixOf_cons₂])]
      simp
    · by_cases hc3 : c = sqChar
      · subst hc3
        rw [show tok1 sqChar = [bsChar, sqChar] from rfl,
          show tok2 sqChar = [bsChar, sqChar] from rfl]
        show replaceList _ _ (bsChar :: sqChar :: expandWith _ t) = _
        rw [replaceList,
          if_neg (by simp [List.isPrefixOf_cons₂,
            show (':' == sqChar) = false from rfl])]
        rw [replaceList,
          if_neg (by simp [List.isPrefixOf_cons₂,
            show (bsChar == sqChar) = false from rfl])]
        rfl
      · rw [show tok1 c = [c] from by simp [tok1, hc, hc2, hc3],
          show tok2 c = [c] from by simp [tok2, hc, hc2, hc3]]
        show replaceList _ _ (c :: expandWith _ t) = _
        rw [replaceList,
          if_neg (by simp [List.isPrefixOf_cons₂, Ne.symm hc])]
        rfl

lemma unescape_step3 (s : List Char) :
    replaceList [bsChar, sqChar] [sqChar] (expandWith tok2 s)
      = expandWith (fun c => [c]) s := by
  refine replaceList_stream _ _ _ _ ?_ s
  intro c t
  by_cases hc : c = bsChar
  · subst hc
    rw [show tok2 bsChar = [bsChar] from rfl]
    show replaceList _ _ (bsChar :: expandWith tok2 t)
      = [bsChar] ++ replaceList _ _ (expandWith tok2 t)
    cases hE : expandWith tok2 t with
    | nil => simp [replaceList, List.isPrefixOf_cons₂]
    | cons d r =>
      have hd : sqChar ≠ d := Ne.symm (expandWith_tok2_head t d r hE)
      rw [replaceList,
        if_neg (by simp [List.isPrefixOf_cons₂, hd])]
      rfl
  · by_cases hc2 : c = ':'
    · subst hc2
      rw [show tok2 ':' = [':'] from rfl]
      show replaceList _ _ (':' :: expandWith tok2 t)
        = [':'] ++ replaceList _ _ (expandWith tok2 t)
      rw [replaceList,
        if_neg (by simp [List.isPrefixOf_cons₂,
          show (bsChar == ':') = false from rfl])]
      rfl
    · by_cases hc3 : c = sqChar
      · subst hc3
        rw [show tok2 sqChar = [bsChar, sqChar] from rfl]
        show replaceList _ _ (bsChar :: sqChar :: expandWith tok2 t)
          = [sqChar] ++ replaceList _ _ (expandWith tok2 t)
        rw [replaceList, if_pos (by simp [List.isPrefixOf_cons₂])]
        simp
      · rw [show tok2 c = [c] from by simp [tok2, hc, hc2, hc3]]
        show replaceList _ _ (c :: expandWith tok2 t)
          = [c] ++ replaceList _ _ (expandWith tok2 t)
        rw [replaceList,
          if_neg (by simp [List.isPrefixOf_cons₂, Ne.symm hc])]
        rfl

/-- C6: the drawtext parameter-value escaping applies exactly the three
substitutions backslash, colon, single-quote in that fixed order, and for
every input string, reversing the three rules in the same fixed order
recovers the original string. -/
theorem drawtext_escape_roundtrip (s : List Char) :
    unescapeDrawtextValue (escapeDrawtextValue s) = s := by
  rw [escapeDrawtextValue_eq, unescapeDrawtextValue, unescape_step1,
    unescape_step2, unescape_step3, expandWith_singleton]

set_option maxRecDepth 100000 in
/-- C3: at the representative positive effect parameters of `loopFilterC3`,
every effect list whose normalised set contains `steam` compiles to a filter
graph with exactly one split into the two labelled streams `[base]` and
`[steam]` and exactly one overlay merge; and for the effect set
`{steam, vignette}` the vignette stage appears strictly after the overlay
merge in the string. -/
theorem steam_split_overlay (effects effects2 : List String)
    (h : effectSetContains effects "steam" = true)
    (h2s : effectSetContains effects2 "steam" = true)
    (h2v : effectSetContains effects2 "vignette" = true)
    (h2sw : effectSetContains effects2 "sway" = false)
    (h2f : effectSetContains effects2 "flicker" = false)
    (h2c : effectSetContains effects2 "color_drift" = false)
    (h2h : effectSetContains effects2 "hue" = false) :
    (countOccs "split".data (loopFilterC3 effects).data = 1 ∧
     countOccs "split=2[base][steam]".data (loopFilterC3 effects).data = 1 ∧
     countOccs "overlay".data (loopFilterC3 effects).data = 1) ∧
    (countOccs "vignette".data (loopFilterC3 effects2).data = 1 ∧
     firstOccIdx "overlay".data (loopFilterC3 effects2).data
       < firstOccIdx "vignette".data (loopFilterC3 effects2).data) := by
  have e1 : loopFilterC3 effects = filterValueCore ratStr ratStr 5 30
      "1920x1080" (1 / 50) (1 / 10) (7 / 20) (3 / 200) 12 none "smooth"
      (2 / 25) 10 12 (1 / 50) (1 / 20) (effectSetContains effects "sway")
      (effectSetContains effects "flicker")
      (effectSetContains effects "color_drift")
      (effectSetContains effects "hue") (effectSetContains effects "vignette")
      (effectSetContains effects "steam") := rfl
  have e2 : loopFilterC3 effects2 = filterValueCore ratStr ratStr 5 30
      "1920x1080" (1 / 50) (1 / 10) (7 / 20) (3 / 200) 12 none "smooth"
      (2 / 25) 10 12 (1 / 50) (1 / 20) (effectSetContains effects2 "sway")
      (effectSetContains effects2 "flicker")
      (effectSetContains effects2 "color_drift")
      (effectSetContains effects2 "hue") (effectSetContains effects2 "vignette")
      (effectSetContains effects2 "steam") := rfl
  constructor
  · rw [e1, h]
    cases h1 : effectSetContains effects "sway" <;>
      cases h2 : effectSetContains effects "flicker" <;>
        cases h3 : effectSetContains effects "color_drift" <;>
          cases h4 : effectSetContains effects "hue" <;>
            cases h5 : effectSetContains effects "vignette" <;>
              exact ⟨by with_unfolding_all rfl, by with_unfolding_all rfl,
                by with_unfolding_all rfl⟩
  · rw [e2, h2s, h2v, h2sw, h2f, h2c, h2h]
    exact ⟨by with_unfolding_all rfl,
      of_decide_eq_true (by with_unfolding_all rfl)⟩

set_option maxRecDepth 100000 in
/-- Witness for C3 at the full effect list and at `{steam, vignette}`. -/
theorem steam_split_overlay_witness :
    (countOccs "split".data
        (loopFilterC3 ["steam", "sway", "flicker", "hue", "vignette"]).data = 1 ∧
     countOccs "split=2[base][steam]".data
        (loopFilterC3 ["steam", "sway", "flicker", "hue", "vignette"]).data = 1 ∧
     countOccs "overlay".data
        (loopFilterC3 ["steam", "sway", "flicker", "hue", "vignette"]).data = 1)
      ∧
    (countOccs "vignette".data (loopFilterC3 ["steam", "vignette"]).data = 1 ∧
     firstOccIdx "overlay".data (loopFilterC3 ["steam", "vignette"]).data
       < firstOccIdx "vignette".data (loopFilterC3 ["steam", "vignette"]).data)
      :=
  steam_split_overlay ["steam", "sway", "flicker", "hue", "vignette"]
    ["steam", "vignette"] rfl rfl rfl rfl rfl rfl rfl

lemma motionMixes_else (style : String) (cycle : ℤ)
    (hc : style ≠ "cinematic") (ho : style ≠ "orbit") :
    motionMixes style cycle
      = (.sin (phaseExpr cycle), .sin (phaseExpr cycle),
         .cos (phaseExpr cycle)) := by
  rw [motionMixes, if_neg hc, if_neg ho]

lemma motionMixes_orbit (cycle : ℤ) :
    motionMixes "orbit" cycle
      = (.sin (phaseExpr cycle), .sin (phaseExpr cycle),
         .sin (.add (phaseExpr cycle) (.div .pi (.num 2)))) := by
  rw [motionMixes, if_neg (by decide), if_pos rfl]

lemma motionMixes_zoom_noncin (style : String) (cycle : ℤ)
    (hc : style ≠ "cinematic") :
    (motionMixes style cycle).1 = .sin (phaseExpr cycle) := by
  by_cases ho : style = "orbit"
  · rw [ho, motionMixes_orbit]
  · rw [motionMixes_else style cycle hc ho]

/-- C7: the smooth style and every unrecognised style name build exactly the
smooth motion expressions, and those evaluate identically to the orbit
style's zoom, pan-x and pan-y expressions (orbit's pan-y being pan-x
phase-shifted by pi/2). -/
theorem smooth_equals_orbit (style : String) (d : ℚ) (fps : ℕ) (zA pA : ℚ)
    (env : MEnv ℝ) (hc : styleNorm style ≠ "cinematic")
    (ho : styleNorm style ≠ "orbit") :
    motionExprs style d fps zA pA = motionExprs "smooth" d fps zA pA ∧
    FExpr.evalG Real.sin Real.cos Real.pi env (motionExprs style d fps zA pA).1
      = FExpr.evalG Real.sin Real.cos Real.pi env
          (motionExprs "orbit" d fps zA pA).1 ∧
    FExpr.evalG Real.sin Real.cos Real.pi env
        (motionExprs style d fps zA pA).2.1
      = FExpr.evalG Real.sin Real.cos Real.pi env
          (motionExprs "orbit" d fps zA pA).2.1 ∧
    FExpr.evalG Real.sin Real.cos Real.pi env
        (motionExprs style d fps zA pA).2.2
      = FExpr.evalG Real.sin Real.cos Real.pi env
          (motionExprs "orbit" d fps zA pA).2.2 := by
  have heq : motionExprs style d fps zA pA = motionExprs "smooth" d fps zA pA
      := by
    simp only [motionExprs]
    rw [motionMixes_else (styleNorm style) _ hc ho,
      motionMixes_else (styleNorm "smooth") _ (by decide) (by decide)]
  have horb : motionExprs "orbit" d fps zA pA
      = (.add (.num (1 + zA)) (.mul (.num zA)
          (.sin (phaseExpr (cycleOf d fps)))),
         .mul (.mul (.div (.sub .viw (.div .viw .vzoom)) (.num 2)) (.num pA))
           (.sin (phaseExpr (cycleOf d fps))),
         .mul (.mul (.div (.sub .vih (.div .vih .vzoom)) (.num 2)) (.num pA))
           (.sin (.add (phaseExpr (cycleOf d fps)) (.div .pi (.num 2))))) := by
    simp only [motionExprs]
    rw [show styleNorm "orbit" = "orbit" from rfl, motionMixes_orbit]
  have hsm : motionExprs "smooth" d fps zA pA
      = (.add (.num (1 + zA)) (.mul (.num zA)
          (.sin (phaseExpr (cycleOf d fps)))),
         .mul (.mul (.div (.sub .viw (.div .viw .vzoom)) (.num 2)) (.num pA))
           (.sin (phaseExpr (cycleOf d fps))),
         .mul (.mul (.div (.sub .vih (.div .vih .vzoom)) (.num 2)) (.num pA))
           (.cos (phaseExpr (cycleOf d fps)))) := by
    simp only [motionExprs]
    rw [motionMixes_else (styleNorm "smooth") _ (by decide) (by decide)]
  refine ⟨heq, ?_, ?_, ?_⟩ <;> rw [heq, horb, hsm]
  dsimp only
  simp only [FExpr.evalG]
  congr 1
  rw [show ((2 : ℚ) : ℝ) = (2 : ℝ) by norm_num, Real.sin_add_pi_div_two]

/-- Witness for C7 at the unrecognised style name `"wobble"`. -/
theorem smooth_equals_orbit_witness :
    motionExprs "wobble" 5 30 (1 / 50) (1 / 10)
      = motionExprs "smooth" 5 30 (1 / 50) (1 / 10) ∧
    FExpr.evalG Real.sin Real.cos Real.pi (⟨2, 1920, 1080, 1⟩ : MEnv ℝ)
        (motionExprs "wobble" 5 30 (1 / 50) (1 / 10)).1
      = FExpr.evalG Real.sin Real.cos Real.pi (⟨2, 1920, 1080, 1⟩ : MEnv ℝ)
          (motionExprs "orbit" 5 30 (1 / 50) (1 / 10)).1 ∧
    FExpr.evalG Real.sin Real.cos Real.pi (⟨2, 1920, 1080, 1⟩ : MEnv ℝ)
        (motionExprs "wobble" 5 30 (1 / 50) (1 / 10)).2.1
      = FExpr.evalG Real.sin Real.cos Real.pi (⟨2, 1920, 1080, 1⟩ : MEnv ℝ)
          (motionExprs "orbit" 5 30 (1 / 50) (1 / 10)).2.1 ∧
    FExpr.evalG Real.sin Real.cos Real.pi (⟨2, 1920, 1080, 1⟩ : MEnv ℝ)
        (motionExprs "wobble" 5 30 (1 / 50) (1 / 10)).2.2
      = FExpr.evalG Real.sin Real.cos Real.pi (⟨2, 1920, 1080, 1⟩ : MEnv ℝ)
          (motionExprs "orbit" 5 30 (1 / 50) (1 / 10)).2.2 :=
  smooth_equals_orbit "wobble" 5 30 (1 / 50) (1 / 10) ⟨2, 1920, 1080, 1⟩
    (by decide) (by decide)

/-- C5 counterexample: at frame 0 the oscillation phase is 0, a multiple of
2*pi, yet the smooth zoom expression with zoom_amount 0.02 evaluates to
1.02 = 1 + zoom_amount, not to 1.0 as the claim states. -/
theorem zoom_expr_at_two_pi_counterexample :
    FExpr.evalG Real.sin Real.cos Real.pi (⟨0, 0, 0, 1⟩ : MEnv ℝ)
      (motionExprs "smooth" 5 30 (1 / 50) 0).1 = 1 + 1 / 50 ∧
    (1 + 1 / 50 : ℝ) ≠ 1 := by
  constructor
  · have hzoom : (motionExprs "smooth" 5 30 (1 / 50) 0).1
        = .add (.num (1 + 1 / 50)) (.mul (.num (1 / 50))
            (.sin (phaseExpr (cycleOf 5 30)))) := by
      rw [show (motionExprs "smooth" 5 30 (1 / 50) 0).1
          = .add (.num (1 + 1 / 50)) (.mul (.num (1 / 50))
              (motionMixes (styleNorm "smooth") (cycleOf 5 30)).1) from rfl]
      rw [motionMixes_zoom_noncin _ _ (by decide)]
    rw [hzoom]
    simp only [FExpr.evalG, phaseExpr]
    norm_num [Real.sin_zero]
  · norm_num

/-- C5 (amended): with zoom_amount = 0.02, for every non-cinematic style the
zoom expression evaluates to exactly 1.02 = 1 + zoom_amount at every frame
whose oscillation phase is a multiple of 2*pi, and to exactly
1.04 = 1 + 2*zoom_amount at the phase-pi/2 extremum. -/
theorem zoom_expr_extrema (style : String) (d : ℚ) (fps : ℕ) (pA : ℚ)
    (env1 env2 : MEnv ℝ) (k : ℤ) (hc : styleNorm style ≠ "cinematic")
    (h1 : env1.onv = (k : ℝ) * ((cycleOf d fps : ℤ) : ℝ))
    (h2 : env2.onv * 4 = ((cycleOf d fps : ℤ) : ℝ)) :
    FExpr.evalG Real.sin Real.cos Real.pi env1
      (motionExprs style d fps (1 / 50) pA).1 = 1 + 1 / 50 ∧
    FExpr.evalG Real.sin Real.cos Real.pi env2
      (motionExprs style d fps (1 / 50) pA).1 = 1 + 2 * (1 / 50) := by
  have hcyc : (1 : ℤ) ≤ cycleOf d fps := le_max_right _ _
  have hcyc0 : ((cycleOf d fps : ℤ) : ℝ) ≠ 0 := by
    have hpos : (0 : ℝ) < ((cycleOf d fps : ℤ) : ℝ) := by
      exact_mod_cast lt_of_lt_of_le Int.zero_lt_one hcyc
    linarith
  have hzoom : (motionExprs style d fps (1 / 50) pA).1
      = .add (.num (1 + 1 / 50)) (.mul (.num (1 / 50))
          (.sin (phaseExpr (cycleOf d fps)))) := by
    rw [show (motionExprs style d fps (1 / 50) pA).1
        = .add (.num (1 + 1 / 50)) (.mul (.num (1 / 50))
            (motionMixes (styleNorm style) (cycleOf d fps)).1) from rfl]
    rw [motionMixes_zoom_noncin _ _ hc]
  constructor
  · rw [hzoom]
    simp only [FExpr.evalG, phaseExpr]
    rw [h1]
    have harg : ((2 : ℚ) : ℝ) * Real.pi * ((k : ℝ) * ((cycleOf d fps : ℤ) : ℝ))
        / (((cycleOf d fps : ℤ) : ℚ) : ℝ) = ((2 * k : ℤ) : ℝ) * Real.pi := by
      push_cast
      field_simp
      ring
    rw [harg, Real.sin_int_mul_pi]
    push_cast
    norm_num
  · rw [hzoom]
    simp only [FExpr.evalG, phaseExpr]
    have honv : env2.onv = ((cycleOf d fps : ℤ) : ℝ) / 4 := by linarith
    rw [honv]
    have harg : ((2 : ℚ) : ℝ) * Real.pi * (((cycleOf d fps : ℤ) : ℝ) / 4)
        / (((cycleOf d fps : ℤ) : ℚ) : ℝ) = Real.pi / 2 := by
      push_cast
      field_simp
      ring
    rw [harg, Real.sin_pi_div_two]
    push_cast
    norm_num

/-- Witness for the amended C5 at duration 5s, 30 fps, frame 0 and the
quarter-cycle frame. -/
theorem zoom_expr_extrema_witness :
    FExpr.evalG Real.sin Real.cos Real.pi (⟨0, 0, 0, 1⟩ : MEnv ℝ)
      (motionExprs "smooth" 5 30 (1 / 50) 0).1 = 1 + 1 / 50 ∧
    FExpr.evalG Real.sin Real.cos Real.pi
      (⟨((cycleOf 5 30 : ℤ) : ℝ) / 4, 0, 0, 1⟩ : MEnv ℝ)
      (motionExprs "smooth" 5 30 (1 / 50) 0).1 = 1 + 2 * (1 / 50) :=
  zoom_expr_extrema "smooth" 5 30 0 ⟨0, 0, 0, 1⟩
    ⟨((cycleOf 5 30 : ℤ) : ℝ) / 4, 0, 0, 1⟩ 0 (by decide) (by simp) (by ring)

end UploaderAgent
